import Mathlib

/-
Verification of the budgeting-analysis core: the Record Store, Filter Layer,
Aggregation Engine and Spreadsheet Rewriter described by the repository's
documentation (README.md, Agents.md).  The repository ships the documentation
and two notebooks; the Python modules themselves (dashboard.py, data_loader.py,
plots.py, xlsx_handler.py, category_colors.py) are reconstructed here from the
code snippets embedded in Agents.md and, where those stop short, modelled from
the specification.
-/

namespace Budget

/-- Calendar date carried by a Date cell: year, month, day.  Mirrors the
fields of a Python `datetime.date`. -/
structure Date where
  year : Nat
  month : Nat
  day : Nat
deriving DecidableEq, Repr

/-- Lexicographic order on (year, month, day); this is exactly how Python
`datetime` objects compare, which is the comparison used by the sort phase. -/
def Date.leb (a b : Date) : Bool :=
  if a.year = b.year then
    if a.month = b.month then a.day ≤ b.day
    else a.month < b.month
  else a.year < b.year

/-- A date that `datetime.datetime(y, m, d)` would accept has its month in
1..12 and its day in 1..31. -/
def Date.Valid (d : Date) : Prop :=
  1 ≤ d.month ∧ d.month ≤ 12 ∧ 1 ≤ d.day ∧ d.day ≤ 31

instance : DecidablePred Date.Valid := fun d => by
  unfold Date.Valid; infer_instance

/-- Index of a calendar month on the time line (the key produced by a
month-start resample): 12 * year + (month - 1). -/
def monthIndex (d : Date) : Nat := 12 * d.year + (d.month - 1)

/-- One purchase record after loading: item, category, cost, date, notes.
Costs are exact decimals, modelled as rationals. -/
structure Record where
  item : String
  category : String
  cost : ℚ
  date : Date
  notes : String
deriving DecidableEq, Repr

/-- Modelled from the spec: `_update_metrics` in the missing `dashboard.py`
computes the Total spent KPI by summing the (already numeric) Cost column,
a running accumulation over the rows. -/
def totalSpent (rs : List Record) : ℚ :=
  rs.foldl (fun acc r => acc + r.cost) 0

/-- Modelled from the spec: `itemCount` KPI of `_update_metrics` in the
missing `dashboard.py` is the number of rows of the filtered frame. -/
def itemCount (rs : List Record) : Nat := rs.length

/-- Modelled from the spec: `averageSpend` of the missing `dashboard.py` is
totalSpent / itemCount, defined as 0 when itemCount is 0. -/
def averageSpend (rs : List Record) : ℚ :=
  if itemCount rs = 0 then 0 else totalSpent rs / (itemCount rs : ℚ)

/-- Earliest date among the records (the lower end of the range a pandas
resample spans); an arbitrary epoch value on the empty set. -/
def earliestDate (rs : List Record) : Date :=
  match rs with
  | [] => ⟨1970, 1, 1⟩
  | r :: t => t.foldl (fun acc x => if Date.leb acc x.date then acc else x.date) r.date

/-- Latest date among the records (the upper end of the resampled range). -/
def latestDate (rs : List Record) : Date :=
  match rs with
  | [] => ⟨1970, 1, 1⟩
  | r :: t => t.foldl (fun acc x => if Date.leb x.date acc then acc else x.date) r.date

/-- Total cost of the records falling in the calendar month with index k. -/
def monthTotal (rs : List Record) (k : Nat) : ℚ :=
  ((rs.filter (fun r => monthIndex r.date = k)).map Record.cost).sum

/-- Modelled from the spec: `monthly_trend_figure` in the missing `plots.py`
resamples the frame by month start and sums, producing one (month, total)
entry for every calendar month from the earliest to the latest record date,
months with no transactions included with total 0. -/
def monthlyTrend (rs : List Record) : List (Nat × ℚ) :=
  match rs with
  | [] => []
  | _ :: _ =>
    (List.range (monthIndex (latestDate rs) - monthIndex (earliestDate rs) + 1)).map
      (fun i => (monthIndex (earliestDate rs) + i,
                 monthTotal rs (monthIndex (earliestDate rs) + i)))

/-- Trailing window of width at most w ending at position i. -/
def windowSlice (xs : List ℚ) (w i : Nat) : List ℚ :=
  (xs.take (i + 1)).drop (i + 1 - w)

/-- Modelled from the spec: `rolling_average_figure` in the missing `plots.py`
computes, for each period, the mean of the current and the preceding
window - 1 periods, partial windows (not NaN) at the start. -/
def rollingAverage (xs : List ℚ) (w : Nat) : List ℚ :=
  (List.range xs.length).map (fun i =>
    (windowSlice xs w i).sum / ((windowSlice xs w i).length : ℚ))

/-- Costs of the records in ascending order. -/
def sortedCosts (rs : List Record) : List ℚ :=
  (rs.map Record.cost).mergeSort (fun a b => decide (a ≤ b))

/-- Modelled from the spec: percentile with linear interpolation between
order statistics (the pandas quantile default); 0 on the empty list. -/
def quantileQ (xs : List ℚ) (p : ℚ) : ℚ :=
  match xs with
  | [] => 0
  | _ :: _ =>
    let h := p * ((xs.length : ℚ) - 1)
    let i := (⌊h⌋).toNat
    let lo := xs.getD i 0
    lo + (h - (⌊h⌋ : ℚ)) * (xs.getD (i + 1) lo - lo)

/-- Modelled from the spec: the 25th/50th/75th percentiles of per-transaction
cost computed by `_update_metrics` in the missing `dashboard.py`. -/
def quartiles (rs : List Record) : ℚ × ℚ × ℚ :=
  (quantileQ (sortedCosts rs) (1/4),
   quantileQ (sortedCosts rs) (1/2),
   quantileQ (sortedCosts rs) (3/4))

/-- Sample variance (ddof = 1), 0 when fewer than 2 values. -/
def sampleVariance (xs : List ℚ) : ℚ :=
  if xs.length < 2 then 0
  else
    ((xs.map (fun x => (x - xs.sum / (xs.length : ℚ)) ^ 2)).sum) / ((xs.length : ℚ) - 1)

/-- Modelled from the spec: `standardDeviation` of the missing `dashboard.py`
is the sample standard deviation of per-transaction cost, 0 when fewer than
2 records. -/
noncomputable def standardDeviation (rs : List Record) : ℝ :=
  if rs.length < 2 then 0 else Real.sqrt ((sampleVariance (rs.map Record.cost) : ℚ) : ℝ)

/-- Modelled from the spec: `volatility` of the missing `dashboard.py` is the
standard deviation of the monthly bucket totals. -/
noncomputable def volatility (rs : List Record) : ℝ :=
  if ((monthlyTrend rs).map Prod.snd).length < 2 then 0
  else Real.sqrt ((sampleVariance ((monthlyTrend rs).map Prod.snd) : ℚ) : ℝ)

/-- Days since 1970-01-01 of a civil date (the standard days-from-civil
algorithm, with truncating integer division as in C++ and Python). -/
def epochDay (d : Date) : Int :=
  let y : Int := if d.month ≤ 2 then (d.year : Int) - 1 else (d.year : Int)
  let era : Int := (if 0 ≤ y then y else y - 399) / 400
  let yoe : Int := y - era * 400
  let doy : Int := (153 * (((d.month : Int) + 9) % 12) + 2) / 5 + (d.day : Int) - 1
  era * 146097 + (yoe * 365 + yoe / 4 - yoe / 100 + doy) - 719468

/-- Smallest key among the records, 0 on the empty set. -/
def minKey (rs : List Record) (key : Date → Int) : Int :=
  match rs with
  | [] => 0
  | r :: t => t.foldl (fun acc x => min acc (key x.date)) (key r.date)

/-- Largest key among the records, 0 on the empty set. -/
def maxKey (rs : List Record) (key : Date → Int) : Int :=
  match rs with
  | [] => 0
  | r :: t => t.foldl (fun acc x => max acc (key x.date)) (key r.date)

/-- Calendar units the period-average KPIs bucket by. -/
inductive PeriodUnit
  | week
  | month
  | year
deriving DecidableEq, Repr

/-- Bucket key of a date for each calendar unit (weeks are 7-day blocks
aligned to Monday via the epoch-day number). -/
def periodKey : PeriodUnit → Date → Int
  | .week, d => (epochDay d + 3) / 7
  | .month, d => (monthIndex d : Int)
  | .year, d => (d.year : Int)

/-- Gap-filled bucket totals between the smallest and largest occupied key. -/
def bucketTotals (rs : List Record) (key : Date → Int) : List ℚ :=
  match rs with
  | [] => []
  | _ :: _ =>
    (List.range ((maxKey rs key - minKey rs key).toNat + 1)).map
      (fun i => ((rs.filter (fun r => key r.date = minKey rs key + i)).map Record.cost).sum)

/-- Modelled from the spec: `periodAverage` of the missing `dashboard.py`
buckets costs by calendar unit and takes the mean of the bucket totals; 0 on
the empty set. -/
def periodAverage (rs : List Record) (u : PeriodUnit) : ℚ :=
  if (bucketTotals rs (periodKey u)).length = 0 then 0
  else (bucketTotals rs (periodKey u)).sum / ((bucketTotals rs (periodKey u)).length : ℚ)

/-- Modelled from the spec: `cumulative_spending_figure` in the missing
`plots.py` shows the running total across every calendar day in range,
zero-spend days included. -/
def cumulativeSpending (rs : List Record) : List (Int × ℚ) :=
  match rs with
  | [] => []
  | _ :: _ =>
    (List.range ((maxKey rs epochDay - minKey rs epochDay).toNat + 1)).map
      (fun i => (minKey rs epochDay + i,
        ((rs.filter (fun r => epochDay r.date ≤ minKey rs epochDay + i)).map Record.cost).sum))

/-- Per-item cost totals: one entry per distinct item name, paired with the
sum of the costs of that item's transactions (a pandas groupby-sum). -/
def itemTotals (rs : List Record) : List (String × ℚ) :=
  ((rs.map Record.item).dedup).map
    (fun name => (name, ((rs.filter (fun r => r.item = name)).map Record.cost).sum))

/-- Order used to rank grouped totals: descending by total, ties broken by
name ascending. -/
def topLe (a b : String × ℚ) : Bool :=
  if a.2 = b.2 then decide (a.1 ≤ b.1) else decide (b.2 < a.2)

/-- Modelled from the spec: `top_items_bar_chart` in the missing `plots.py`
groups by item name, sums cost, sorts descending by total with ties broken
by item name ascending, and keeps the first n items. -/
def topItems (rs : List Record) (n : Nat) : List (String × ℚ) :=
  ((itemTotals rs).mergeSort topLe).take n

/-- Per-category cost totals (groupby-sum over Category). -/
def categoryTotals (rs : List Record) : List (String × ℚ) :=
  ((rs.map Record.category).dedup).map
    (fun c => (c, ((rs.filter (fun r => r.category = c)).map Record.cost).sum))

/-- Modelled from the spec: `category_pie_chart` in the missing `plots.py`
keeps the topN categories by total and aggregates the remainder into a
single Other bucket rather than dropping it. -/
def categoryBreakdown (rs : List Record) (topN : Nat) : List (String × ℚ) :=
  ((categoryTotals rs).mergeSort topLe).take topN ++
    (if ((categoryTotals rs).mergeSort topLe).drop topN = [] then []
     else [("Other", ((((categoryTotals rs).mergeSort topLe).drop topN).map Prod.snd).sum)])

/-- Quartile bin (0-3) of one cost given the three quartile cut points. -/
def binOf (q1 q2 q3 x : ℚ) : Nat :=
  if x ≤ q1 then 0 else if x ≤ q2 then 1 else if x ≤ q3 then 2 else 3

/-- Modelled from the spec: `amount_distribution_pie` in the missing
`plots.py` buckets transactions into 4 quartile bins by individual cost and
reports per-bin total and count. -/
def amountDistribution (rs : List Record) : List (ℚ × Nat) :=
  match rs with
  | [] => []
  | _ :: _ =>
    (List.range 4).map (fun b =>
      (((rs.map Record.cost).filter
          (fun x => binOf (quartiles rs).1 (quartiles rs).2.1 (quartiles rs).2.2 x = b)).sum,
       ((rs.map Record.cost).filter
          (fun x => binOf (quartiles rs).1 (quartiles rs).2.1 (quartiles rs).2.2 x = b)).length))

/-- True when the search text is empty or all whitespace (Python
`s.strip() == ''`). -/
def isBlank (s : String) : Bool := s.data.all (fun c => c.isWhitespace)

/-- Case-folded characters of a string. -/
def lowerData (s : String) : List Char := s.data.map Char.toLower

/-- Substring occurrence test: needle occurs contiguously inside hay. -/
def containsSub (hay needle : List Char) : Bool :=
  (List.range (hay.length + 1)).any
    (fun i => decide ((hay.drop i).take needle.length = needle))

/-- Modelled from the spec: the search predicate of `_compute_and_update` in
the missing `dashboard.py`: case-insensitive substring match against Item or
Notes, with empty or whitespace-only text a no-op. -/
def matchesSearch (r : Record) (s : String) : Bool :=
  if isBlank s then true
  else containsSub (lowerData r.item) (lowerData s)
    || containsSub (lowerData r.notes) (lowerData s)

/-- Period selections offered by the year combo box. -/
inductive Period
  | all
  | last12
  | year (y : String)
deriving DecidableEq, Repr

/-- Modelled from the spec: the year/period predicate of
`_compute_and_update` in the missing `dashboard.py`: last12 keeps the 12
complete calendar months ending with the month of the most recent record's
date (inclusive); an explicit year matches the derived year; all keeps
everything. -/
def inPeriod (rs : List Record) (p : Period) (r : Record) : Bool :=
  match p with
  | .all => true
  | .last12 =>
      decide (monthIndex (latestDate rs) ≤ monthIndex r.date + 11) &&
      decide (monthIndex r.date ≤ monthIndex (latestDate rs))
  | .year y => decide (toString r.date.year = y)

/-- Modelled from the spec: `filter(records, period, searchText)` composes the
period predicate and the search predicate by intersection, returning a new
collection. -/
def filterRecords (rs : List Record) (p : Period) (s : String) : List Record :=
  (rs.filter (fun r => inPeriod rs p r)).filter (fun r => matchesSearch r s)

/-- Two records with distinct items but equal cost, used to witness the
deterministic tie-break of topItems. -/
def tieSet : List Record :=
  [⟨"beta", "Gaming", 5, ⟨2024, 1, 1⟩, ""⟩, ⟨"alpha", "Gaming", 5, ⟨2024, 2, 1⟩, ""⟩]

/-- The category → display-color palette of `category_colors.py`, exactly as
listed in the in-repo documentation. -/
def category_colors : List (String × String) :=
  [("Food & Beverages", "#D9D9D9"),
   ("Books & Literature", "#e9a9ff"),
   ("Gaming", "#bbe33d"),
   ("Digital Subscriptions", "#fbffa9"),
   ("Movies & Media", "#a05eff"),
   ("Music & Audio", "#ffa9f2"),
   ("Electronics & Accessories", "#729fcf"),
   ("Clothing & Apparel", "#D9D9D9"),
   ("Health & Personal Care", "#a9ffc4"),
   ("Collectibles", "#ffc85d"),
   ("Miscellaneous", "#D9D9D9")]

/-- Modelled from the spec: `get_category_color` in the missing
`category_colors.py` returns the palette color of the category, handles a
missing (None) category, and falls back to the Miscellaneous color for
names outside the palette. -/
def get_category_color (category : Option String) : String :=
  match category_colors.lookup (category.getD "Miscellaneous") with
  | some c => c
  | none => (category_colors.lookup "Miscellaneous").getD "#D9D9D9"

/-- A hash sign followed by exactly six hexadecimal digits. -/
def isHexColor (s : String) : Bool :=
  match s.data with
  | '#' :: rest =>
      decide (rest.length = 6) && rest.all (fun c => c.isDigit
        || (decide ('a' ≤ c) && decide (c ≤ 'f'))
        || (decide ('A' ≤ c) && decide (c ≤ 'F')))
  | _ => false

/-- A raw spreadsheet cell as the loader sees it: a genuine date value, a
number, text, or empty. -/
inductive CellVal
  | date (d : Date)
  | num (q : ℚ)
  | text (s : String)
  | empty
deriving DecidableEq, Repr

/-- Value of a digit string read most-significant first. -/
def digitsToNat (cs : List Char) : Nat :=
  cs.foldl (fun acc c => acc * 10 + (c.toNat - 48)) 0

/-- Parses a non-empty all-digit character group. -/
def parseDigits (cs : List Char) : Option Nat :=
  if !cs.isEmpty && cs.all Char.isDigit then some (digitsToNat cs) else none

/-- Digit groups of a money string: thousands separators and currency signs
removed, then the integer digits, fractional digits and fractional length. -/
def parseMoneyParts (s : String) : Option (Nat × Nat × Nat) :=
  let cs := s.data.filter (fun c => (c != ',') && (c != '$'))
  match cs.dropWhile (fun c => c != '.') with
  | [] => (parseDigits cs).map (fun n => (n, 0, 0))
  | _ :: fp =>
    match parseDigits (cs.takeWhile (fun c => c != '.')), parseDigits fp with
    | some a, some b => some (a, b, fp.length)
    | _, _ => none

/-- Modelled from the spec: the tolerant numeric parse the missing
`data_loader.py` applies to the Cost column (text with thousands separators
or a currency sign still parses; anything else fails). -/
def parseMoney (s : String) : Option ℚ :=
  (parseMoneyParts s).map (fun p => (p.1 : ℚ) + (p.2.1 : ℚ) / (10 : ℚ) ^ p.2.2)

/-- Parses ISO-like text YYYY-MM-DD into a calendar-valid date. -/
def parseIsoDate (s : String) : Option Date :=
  match s.data.splitOn '-' with
  | [ys, ms, ds] =>
    match parseDigits ys, parseDigits ms, parseDigits ds with
    | some y, some m, some d =>
        if 1 ≤ m ∧ m ≤ 12 ∧ 1 ≤ d ∧ d ≤ 31 then some ⟨y, m, d⟩ else none
    | _, _, _ => none
  | _ => none

/-- Modelled from the spec: the date coercion of `load_df` in the missing
`data_loader.py` (`pd.to_datetime(..., errors='coerce')`): native date
values pass through, ISO-like text is parsed, anything else becomes NaT
(none). -/
def parse_date_cell : CellVal → Option Date
  | .date d => some d
  | .text s => parseIsoDate s
  | _ => none

/-- Modelled from the spec: the cost coercion of `load_df`
(`pd.to_numeric(..., errors='coerce').fillna(0.0)`): numbers pass through,
money-formatted text is parsed, anything unparseable coerces to 0. -/
def parse_cost_cell : CellVal → ℚ
  | .num q => q
  | .text s => (parseMoney s).getD 0
  | _ => 0

/-- One raw spreadsheet row as read by the loader. -/
structure RawRow where
  item : String
  category : String
  costCell : CellVal
  dateCell : CellVal
  notes : String
deriving DecidableEq, Repr

/-- Modelled from the spec: the per-row outcome of `load_df`: none when the
date cell cannot be parsed (the row is dropped), otherwise the typed record
with the coerced cost. -/
def loadRow (r : RawRow) : Option Record :=
  (parse_date_cell r.dateCell).map
    (fun d => ⟨r.item, r.category, parse_cost_cell r.costCell, d, r.notes⟩)

/-- Modelled from the spec: `load_df` of the missing `data_loader.py`, the
row-wise load of the whole sheet. -/
def load_df (rows : List RawRow) : List Record :=
  rows.filterMap loadRow

/-- One worksheet data row of the workbook, columns A-H. -/
structure Row where
  item : CellVal
  category : CellVal
  cost : CellVal
  date : CellVal
  notes : CellVal
  month : CellVal
  monthNum : CellVal
  year : CellVal
deriving DecidableEq, Repr

/-- Embeds `_parse_date` of `remake_xlsx_file` as quoted in the in-repo
documentation: a native date value is rebuilt as datetime(y, m, d); any
other cell goes through `datetime.fromisoformat(str(val))`, which raises
(none) unless the text is ISO-like. -/
def _parse_date : CellVal → Option Date
  | .date d => some ⟨d.year, d.month, d.day⟩
  | .text s => parseIsoDate s
  | _ => none

/-- The date-cell rewrite the sort phase performs on each parseable row:
the cell is replaced by the parsed value as a genuine date, not text. -/
def rewriteRow (r : Row) : Row :=
  match _parse_date r.date with
  | some d => { r with date := .date d }
  | none => r

/-- The `sortable` list of the quoted snippet: each parseable row paired
with its parsed date, in original order, date cell already rewritten. -/
def sortableList (rows : List Row) : List (Date × Row) :=
  rows.filterMap
    (fun r => (_parse_date r.date).map (fun d => (d, { r with date := .date d })))

/-- The `nonsortable` list: rows whose date cell fails to parse, kept in
original order. -/
def nonsortableList (rows : List Row) : List Row :=
  rows.filter (fun r => (_parse_date r.date).isNone)

/-- Comparison used by the sort phase: by parsed date. -/
def dateRowLe (a b : Date × Row) : Bool := Date.leb a.1 b.1

/-- Embeds the sort phase of `remake_xlsx_file`: stable-sort the parseable
rows by parsed date (Python's list.sort is a stable merge sort) and append
the non-sortable rows at the end. -/
def sortRows (rows : List Row) : List Row :=
  ((sortableList rows).mergeSort dateRowLe).map Prod.snd ++ nonsortableList rows

/-- A workbook: the data rows of the single worksheet plus the state the
normalization, validation and formatting phases touch. -/
structure Sheet where
  rows : List Row
  headers : List String
  validationApplied : Bool
  formatted : Bool
deriving DecidableEq, Repr

/-- A directory of named workbook files; reading returns the most recently
written entry for a name. -/
structure FS where
  files : List (String × Sheet)
deriving DecidableEq, Repr

def FS.read (fs : FS) (name : String) : Option Sheet := fs.files.lookup name

def FS.write (fs : FS) (name : String) (s : Sheet) : FS := ⟨(name, s) :: fs.files⟩

/-- The fixed column layout of phase 2. -/
def expectedHeaders : List String :=
  ["Item", "Category", "Cost", "Date", "Notes", "Month", "MonthNum", "Year"]

/-- Modelled from the spec: phase 2, column normalization (header cells,
widths and header styling abstracted to the header list). -/
def normalizeColumns (s : Sheet) : Sheet := { s with headers := expectedHeaders }

/-- Phase 3, the sort phase, embedded as sortRows. -/
def sortPhase (s : Sheet) : Sheet := { s with rows := sortRows s.rows }

/-- Modelled from the spec: phase 4, attach the category dropdown
validation. -/
def validationPhase (s : Sheet) : Sheet := { s with validationApplied := true }

/-- Modelled from the spec: phase 5, fills, number formats and borders. -/
def formatPhase (s : Sheet) : Sheet := { s with formatted := true }

/-- Backup file name: stem, the literal infix, the timestamp, the xlsx
extension. -/
def backupName (stem timestamp : String) : String :=
  stem ++ "_backup_" ++ timestamp ++ ".xlsx"

inductive RewriteError
  | fileMissing
  | backupFailed
deriving DecidableEq, Repr

/-- Result of a rewrite: the error if any, the resulting directory, and the
phases that ran (1 backup, 2 columns, 3 sort, 4 validation, 5 format). -/
structure RewriteOutcome where
  err : Option RewriteError
  fs : FS
  phasesRun : List Nat
deriving Repr

/-- Modelled from the spec: `remake_xlsx_file` of the missing
`xlsx_handler.py`. The workbook at path is copied byte-for-byte to the
timestamped backup before anything else; only when that copy succeeds do
phases 2-5 run and the result overwrite path. backupOk models whether the
environment lets phase 1's copy succeed. -/
def remake_xlsx_file (fs : FS) (path stem timestamp : String) (backupOk : Bool) :
    RewriteOutcome :=
  match fs.read path with
  | none => ⟨some .fileMissing, fs, []⟩
  | some sheet =>
    if backupOk then
      ⟨none,
       (fs.write (backupName stem timestamp) sheet).write path
         (formatPhase (validationPhase (sortPhase (normalizeColumns sheet)))),
       [1, 2, 3, 4, 5]⟩
    else ⟨some .backupFailed, fs, [1]⟩

theorem Date.leb_total (a b : Date) : a.leb b || b.leb a := by
  simp only [Date.leb]
  split_ifs <;> simp_all
  all_goals omega

theorem Date.leb_trans (a b c : Date) :
    a.leb b = true → b.leb c = true → a.leb c = true := by
  simp only [Date.leb]
  split_ifs <;> simp_all <;> omega

theorem Date.leb_refl (a : Date) : a.leb a = true := by
  simp [Date.leb]

/-- For dates with months in range, the lexicographic order refines the order
of month indices. -/
theorem monthIndex_mono {a b : Date} (ha : a.Valid) (hb : b.Valid)
    (h : a.leb b = true) : monthIndex a ≤ monthIndex b := by
  obtain ⟨ha1, ha2, -, -⟩ := ha
  obtain ⟨hb1, hb2, -, -⟩ := hb
  simp only [Date.leb] at h
  simp only [monthIndex]
  split_ifs at h <;> simp_all <;> omega

theorem foldl_add_cost (rs : List Record) (a : ℚ) :
    rs.foldl (fun acc r => acc + r.cost) a = a + (rs.map Record.cost).sum := by
  induction rs generalizing a with
  | nil => simp
  | cons r t ih => simp [ih, add_assoc]

/-- C9: for every record set, totalSpent equals the sum of the cost field
over all its records, and equals 0 for the empty set. -/
theorem C9_totalSpent_eq_sum :
    (∀ rs : List Record, totalSpent rs = (rs.map Record.cost).sum) ∧
    totalSpent [] = 0 := by
  constructor
  · intro rs
    simp [totalSpent, foldl_add_cost]
  · rfl

/-- C6: on the empty record set every Aggregation Engine function returns a
zero-valued or empty structure; all of them are total functions, so none can
raise, and in particular averageSpend is 0 whenever itemCount is 0. -/
theorem C6_empty_recordset_safe :
    totalSpent [] = 0 ∧ itemCount [] = 0 ∧ averageSpend [] = 0 ∧
    quartiles [] = (0, 0, 0) ∧ standardDeviation [] = 0 ∧
    (∀ u : PeriodUnit, periodAverage [] u = 0) ∧ volatility [] = 0 ∧
    monthlyTrend [] = [] ∧ rollingAverage [] 3 = [] ∧
    cumulativeSpending [] = [] ∧ (∀ n : Nat, topItems [] n = []) ∧
    (∀ n : Nat, categoryBreakdown [] n = []) ∧ amountDistribution [] = [] ∧
    (∀ rs : List Record, itemCount rs = 0 → averageSpend rs = 0) := by
  refine ⟨rfl, rfl, rfl, ?_, ?_, ?_, ?_, rfl, rfl, rfl, ?_, ?_, rfl, ?_⟩
  · simp [quartiles, sortedCosts, quantileQ]
  · simp [standardDeviation]
  · intro u
    simp [periodAverage, bucketTotals]
  · simp [volatility, monthlyTrend]
  · intro n
    simp [topItems, itemTotals]
  · intro n
    simp [categoryBreakdown, categoryTotals]
  · intro rs h
    simp [averageSpend, h]

/-- Witness for C6: the final conjunct applied to the empty record set. -/
theorem C6_empty_recordset_safe_witness : averageSpend [] = 0 :=
  C6_empty_recordset_safe.2.2.2.2.2.2.2.2.2.2.2.2.2 [] rfl

theorem rollingAverage_getD (xs : List ℚ) (w i : Nat) (hi : i < xs.length) :
    (rollingAverage xs w).getD i 0 =
      (windowSlice xs w i).sum / ((windowSlice xs w i).length : ℚ) := by
  simp [rollingAverage, List.getD_eq_getElem?_getD, List.getElem?_map,
    List.getElem?_range, hi]

/-- C5: rollingAverage with window 3 is causal: every output entry equals the
mean of the trailing window ending at that position (a slice of the prefix up
to and including that entry, so no later entry is consulted), and the entry
is unchanged when the series is truncated right after it; the first output
entry equals the first trend entry (partial window of size 1) and the third
equals the mean of entries 1-3. -/
theorem C5_rollingAverage_causal :
    (∀ (xs : List ℚ) (w i : Nat), i < xs.length →
      (rollingAverage xs w).getD i 0 =
        (windowSlice xs w i).sum / ((windowSlice xs w i).length : ℚ)) ∧
    (∀ (xs : List ℚ) (w i : Nat), i < xs.length →
      (rollingAverage xs w).getD i 0 = (rollingAverage (xs.take (i + 1)) w).getD i 0) ∧
    (∀ (a : ℚ) (t : List ℚ), (rollingAverage (a :: t) 3).getD 0 0 = a) ∧
    (∀ (a b c : ℚ) (t : List ℚ),
      (rollingAverage (a :: b :: c :: t) 3).getD 2 0 = (a + b + c) / 3) := by
  refine ⟨rollingAverage_getD, ?_, ?_, ?_⟩
  · intro xs w i hi
    have hlen : i < (xs.take (i + 1)).length := by
      simp [List.length_take]; omega
    rw [rollingAverage_getD xs w i hi, rollingAverage_getD _ w i hlen]
    simp [windowSlice, List.take_take]
  · intro a t
    rw [rollingAverage_getD _ 3 0 (by simp)]
    simp [windowSlice]
  · intro a b c t
    rw [rollingAverage_getD _ 3 2 (by simp)]
    show ([a, b, c].sum) / (([a, b, c].length : Nat) : ℚ) = (a + b + c) / 3
    simp [add_assoc]

/-- Witness for C5: the causality and boundary conjuncts evaluated on a
concrete four-entry trend. -/
theorem C5_rollingAverage_causal_witness :
    (rollingAverage [(2 : ℚ), 4, 9, 1] 3).getD 1 0 =
      (rollingAverage ([(2 : ℚ), 4, 9, 1].take 2) 3).getD 1 0 ∧
    (rollingAverage [(2 : ℚ), 4, 9] 3).getD 0 0 = 2 ∧
    (rollingAverage [(2 : ℚ), 4, 9] 3).getD 2 0 = (2 + 4 + 9) / 3 :=
  ⟨C5_rollingAverage_causal.2.1 [2, 4, 9, 1] 3 1 (by simp),
   C5_rollingAverage_causal.2.2.1 2 [4, 9],
   C5_rollingAverage_causal.2.2.2 2 4 9 []⟩

theorem foldl_earliest_le (l : List Record) (a : Date) :
    Date.leb (l.foldl (fun acc x => if Date.leb acc x.date then acc else x.date) a) a = true ∧
    ∀ x ∈ l,
      Date.leb (l.foldl (fun acc x => if Date.leb acc x.date then acc else x.date) a) x.date
        = true := by
  induction l generalizing a with
  | nil => simpa using Date.leb_refl a
  | cons x t ih =>
    obtain ⟨ih1, ih2⟩ := ih (if Date.leb a x.date then a else x.date)
    by_cases h : Date.leb a x.date
    · refine ⟨by simpa [h] using ih1, ?_⟩
      intro y hy
      rcases List.mem_cons.mp hy with rfl | hyt
      · exact Date.leb_trans _ _ _ (by simpa [h] using ih1) h
      · exact by simpa [h] using ih2 y hyt
    · have hxa : Date.leb x.date a = true := by
        have := Date.leb_total a x.date
        simp [h] at this
        exact this
      refine ⟨Date.leb_trans _ _ _ (by simpa [h] using ih1) hxa, ?_⟩
      intro y hy
      rcases List.mem_cons.mp hy with rfl | hyt
      · exact by simpa [h] using ih1
      · exact by simpa [h] using ih2 y hyt

theorem foldl_earliest_mem (l : List Record) (a : Date) :
    l.foldl (fun acc x => if Date.leb acc x.date then acc else x.date) a = a ∨
    ∃ x ∈ l, l.foldl (fun acc x => if Date.leb acc x.date then acc else x.date) a = x.date := by
  induction l generalizing a with
  | nil => exact Or.inl rfl
  | cons x t ih =>
    rcases ih (if Date.leb a x.date then a else x.date) with h1 | ⟨y, hy, he⟩
    · by_cases h : Date.leb a x.date
      · exact Or.inl (by simpa [h] using h1)
      · exact Or.inr ⟨x, List.mem_cons_self x t, by simpa [h] using h1⟩
    · exact Or.inr ⟨y, List.mem_cons_of_mem _ hy, by simpa using he⟩

theorem foldl_latest_ge (l : List Record) (a : Date) :
    Date.leb a (l.foldl (fun acc x => if Date.leb x.date acc then acc else x.date) a) = true ∧
    ∀ x ∈ l,
      Date.leb x.date (l.foldl (fun acc x => if Date.leb x.date acc then acc else x.date) a)
        = true := by
  induction l generalizing a with
  | nil => simpa using Date.leb_refl a
  | cons x t ih =>
    obtain ⟨ih1, ih2⟩ := ih (if Date.leb x.date a then a else x.date)
    by_cases h : Date.leb x.date a
    · refine ⟨by simpa [h] using ih1, ?_⟩
      intro y hy
      rcases List.mem_cons.mp hy with rfl | hyt
      · exact Date.leb_trans _ _ _ h (by simpa [h] using ih1)
      · exact by simpa [h] using ih2 y hyt
    · have hax : Date.leb a x.date = true := by
        have := Date.leb_total x.date a
        simp [h] at this
        exact this
      refine ⟨Date.leb_trans _ _ _ hax (by simpa [h] using ih1), ?_⟩
      intro y hy
      rcases List.mem_cons.mp hy with rfl | hyt
      · exact by simpa [h] using ih1
      · exact by simpa [h] using ih2 y hyt

theorem foldl_latest_mem (l : List Record) (a : Date) :
    l.foldl (fun acc x => if Date.leb x.date acc then acc else x.date) a = a ∨
    ∃ x ∈ l, l.foldl (fun acc x => if Date.leb x.date acc then acc else x.date) a = x.date := by
  induction l generalizing a with
  | nil => exact Or.inl rfl
  | cons x t ih =>
    rcases ih (if Date.leb x.date a then a else x.date) with h1 | ⟨y, hy, he⟩
    · by_cases h : Date.leb x.date a
      · exact Or.inl (by simpa [h] using h1)
      · exact Or.inr ⟨x, List.mem_cons_self x t, by simpa [h] using h1⟩
    · exact Or.inr ⟨y, List.mem_cons_of_mem _ hy, by simpa using he⟩

theorem earliestDate_le {rs : List Record} {r : Record} (h : r ∈ rs) :
    Date.leb (earliestDate rs) r.date = true := by
  match rs, h with
  | x :: t, h =>
    rcases List.mem_cons.mp h with rfl | ht
    · exact (foldl_earliest_le t r.date).1
    · exact (foldl_earliest_le t x.date).2 r ht

theorem earliestDate_mem (rs : List Record) (h : rs ≠ []) :
    ∃ r ∈ rs, earliestDate rs = r.date := by
  match rs with
  | x :: t =>
    rcases foldl_earliest_mem t x.date with h1 | ⟨y, hy, he⟩
    · exact ⟨x, List.mem_cons_self x t, h1⟩
    · exact ⟨y, List.mem_cons_of_mem _ hy, he⟩

theorem le_latestDate {rs : List Record} {r : Record} (h : r ∈ rs) :
    Date.leb r.date (latestDate rs) = true := by
  match rs, h with
  | x :: t, h =>
    rcases List.mem_cons.mp h with rfl | ht
    · exact (foldl_latest_ge t r.date).1
    · exact (foldl_latest_ge t x.date).2 r ht

theorem latestDate_mem (rs : List Record) (h : rs ≠ []) :
    ∃ r ∈ rs, latestDate rs = r.date := by
  match rs with
  | x :: t =>
    rcases foldl_latest_mem t x.date with h1 | ⟨y, hy, he⟩
    · exact ⟨x, List.mem_cons_self x t, h1⟩
    · exact ⟨y, List.mem_cons_of_mem _ hy, he⟩

/-- C4: for every non-empty record set with calendar-valid dates,
monthlyTrend buckets costs by month start, sums them, and gap-fills empty
months with zero: its length is the number of distinct calendar months from
the earliest to the latest record date inclusive, every record's month falls
inside that span, and entry i is exactly (first month + i, total of that
month), which is 0 for months with no transactions; on the concrete set with
records only on 2024-01-10 and 2024-03-05 the series has exactly 3 entries
(January, February = 0, March). -/
theorem C4_monthlyTrend_gapfill :
    (∀ rs : List Record, rs ≠ [] → (∀ r ∈ rs, r.date.Valid) →
      (monthlyTrend rs).length
          = monthIndex (latestDate rs) - monthIndex (earliestDate rs) + 1 ∧
      monthIndex (earliestDate rs) ≤ monthIndex (latestDate rs) ∧
      (∀ r ∈ rs, monthIndex (earliestDate rs) ≤ monthIndex r.date ∧
          monthIndex r.date ≤ monthIndex (latestDate rs)) ∧
      (∀ i, i < (monthlyTrend rs).length →
        (monthlyTrend rs).getD i (0, 0)
            = (monthIndex (earliestDate rs) + i,
               monthTotal rs (monthIndex (earliestDate rs) + i)))) ∧
    monthlyTrend [⟨"a", "Miscellaneous", 7, ⟨2024, 1, 10⟩, ""⟩,
                  ⟨"b", "Miscellaneous", 5, ⟨2024, 3, 5⟩, ""⟩]
        = [(24288, 7), (24289, 0), (24290, 5)] := by
  constructor
  · intro rs hne hval
    obtain ⟨re, hre, heq⟩ := earliestDate_mem rs hne
    obtain ⟨rl, hrl, hleq⟩ := latestDate_mem rs hne
    have hvE : (earliestDate rs).Valid := by rw [heq]; exact hval re hre
    have hvL : (latestDate rs).Valid := by rw [hleq]; exact hval rl hrl
    have hbound : ∀ r ∈ rs, monthIndex (earliestDate rs) ≤ monthIndex r.date ∧
        monthIndex r.date ≤ monthIndex (latestDate rs) := by
      intro r hr
      exact ⟨monthIndex_mono hvE (hval r hr) (earliestDate_le hr),
             monthIndex_mono (hval r hr) hvL (le_latestDate hr)⟩
    have hlohi : monthIndex (earliestDate rs) ≤ monthIndex (latestDate rs) := by
      have h1 := (hbound re hre).2
      rw [heq]
      exact h1
    refine ⟨?_, hlohi, hbound, ?_⟩
    · match rs, hne with
      | x :: t, _ => simp [monthlyTrend]
    · intro i hi
      match rs, hne, hi with
      | x :: t, _, hi =>
        have hi' : i < monthIndex (latestDate (x :: t))
            - monthIndex (earliestDate (x :: t)) + 1 := by
          simpa [monthlyTrend] using hi
        simp [monthlyTrend, List.getD_eq_getElem?_getD, List.getElem?_map,
          List.getElem?_range, hi']
  · norm_num [monthlyTrend, earliestDate, latestDate, Date.leb, monthTotal, monthIndex,
      List.range_succ, List.filter]

/-- Witness for C4: the general statement applied to the concrete two-record
set of the claim. -/
theorem C4_monthlyTrend_gapfill_witness :
    (monthlyTrend [⟨"a", "Miscellaneous", 7, ⟨2024, 1, 10⟩, ""⟩,
                   ⟨"b", "Miscellaneous", 5, ⟨2024, 3, 5⟩, ""⟩]).length
      = monthIndex (latestDate [⟨"a", "Miscellaneous", 7, ⟨2024, 1, 10⟩, ""⟩,
                                ⟨"b", "Miscellaneous", 5, ⟨2024, 3, 5⟩, ""⟩])
        - monthIndex (earliestDate [⟨"a", "Miscellaneous", 7, ⟨2024, 1, 10⟩, ""⟩,
                                    ⟨"b", "Miscellaneous", 5, ⟨2024, 3, 5⟩, ""⟩]) + 1 :=
  (C4_monthlyTrend_gapfill.1 _ (by decide) (by decide)).1

theorem matchesSearch_empty (r : Record) : matchesSearch r "" = true := by
  simp [matchesSearch, isBlank]

/-- C3: filter(records, last12, "") keeps exactly the records whose month
lies in the 12 consecutive calendar months ending with the month of the most
recent record's date inclusive; when the latest date is 2026-01-15 that
month window coincides with the date interval [2025-02-01, 2026-01-31], so a
record dated 2025-01-31 is excluded and one dated 2025-02-01 is included. -/
theorem C3_filter_last12_window :
    (∀ (rs : List Record) (r : Record),
      r ∈ filterRecords rs .last12 "" ↔
        r ∈ rs ∧ monthIndex (latestDate rs) ≤ monthIndex r.date + 11 ∧
          monthIndex r.date ≤ monthIndex (latestDate rs)) ∧
    (∀ d : Date, d.Valid →
      ((monthIndex (⟨2026, 1, 15⟩ : Date) ≤ monthIndex d + 11 ∧
        monthIndex d ≤ monthIndex (⟨2026, 1, 15⟩ : Date)) ↔
       (Date.leb ⟨2025, 2, 1⟩ d = true ∧ Date.leb d ⟨2026, 1, 31⟩ = true))) ∧
    (∀ (rs : List Record) (r : Record), latestDate rs = ⟨2026, 1, 15⟩ →
      (r.date = ⟨2025, 1, 31⟩ → r ∉ filterRecords rs .last12 "") ∧
      (r ∈ rs → r.date = ⟨2025, 2, 1⟩ → r ∈ filterRecords rs .last12 "")) := by
  have hmem : ∀ (rs : List Record) (r : Record),
      r ∈ filterRecords rs .last12 "" ↔
        r ∈ rs ∧ monthIndex (latestDate rs) ≤ monthIndex r.date + 11 ∧
          monthIndex r.date ≤ monthIndex (latestDate rs) := by
    intro rs r
    simp [filterRecords, inPeriod, matchesSearch_empty, List.mem_filter, and_assoc]
  refine ⟨hmem, ?_, ?_⟩
  · intro d hd
    obtain ⟨h1, h2, h3, h4⟩ := hd
    simp only [Date.leb, monthIndex]
    constructor
    · intro ⟨ha, hb⟩
      constructor <;> (split_ifs <;> simp_all <;> omega)
    · intro ⟨ha, hb⟩
      split_ifs at ha hb <;> simp_all <;> omega
  · intro rs r hlat
    constructor
    · intro hdate hmemf
      have := (hmem rs r).mp hmemf
      rw [hlat, hdate] at this
      simp [monthIndex] at this
    · intro hr hdate
      refine (hmem rs r).mpr ⟨hr, ?_⟩
      rw [hlat, hdate]
      simp [monthIndex]

/-- Witness for C3: the boundary conjuncts applied to a concrete record set
whose latest record is dated 2026-01-15. -/
theorem C3_filter_last12_window_witness :
    (⟨"x", "Miscellaneous", 1, ⟨2025, 1, 31⟩, ""⟩ : Record) ∉
      filterRecords [⟨"x", "Miscellaneous", 1, ⟨2025, 1, 31⟩, ""⟩,
                     ⟨"y", "Miscellaneous", 2, ⟨2025, 2, 1⟩, ""⟩,
                     ⟨"z", "Miscellaneous", 3, ⟨2026, 1, 15⟩, ""⟩] .last12 "" ∧
    (⟨"y", "Miscellaneous", 2, ⟨2025, 2, 1⟩, ""⟩ : Record) ∈
      filterRecords [⟨"x", "Miscellaneous", 1, ⟨2025, 1, 31⟩, ""⟩,
                     ⟨"y", "Miscellaneous", 2, ⟨2025, 2, 1⟩, ""⟩,
                     ⟨"z", "Miscellaneous", 3, ⟨2026, 1, 15⟩, ""⟩] .last12 "" :=
  ⟨(C3_filter_last12_window.2.2 _ _ (by decide)).1 rfl,
   (C3_filter_last12_window.2.2 _ _ (by decide)).2 (by decide) rfl⟩

theorem topLe_total (a b : String × ℚ) : topLe a b || topLe b a := by
  by_cases h : a.2 = b.2
  · have h' : b.2 = a.2 := h.symm
    simp only [topLe, if_pos h, if_pos h', Bool.or_eq_true, decide_eq_true_eq]
    exact le_total a.1 b.1
  · have h' : ¬ b.2 = a.2 := fun e => h e.symm
    simp only [topLe, if_neg h, if_neg h', Bool.or_eq_true, decide_eq_true_eq]
    exact Ne.lt_or_lt h'

theorem topLe_trans (a b c : String × ℚ) :
    topLe a b = true → topLe b c = true → topLe a c = true := by
  intro hab hbc
  simp only [topLe] at hab hbc ⊢
  by_cases h1 : a.2 = b.2
  · by_cases h2 : b.2 = c.2
    · have h3 : a.2 = c.2 := h1.trans h2
      rw [if_pos h1, decide_eq_true_eq] at hab
      rw [if_pos h2, decide_eq_true_eq] at hbc
      rw [if_pos h3, decide_eq_true_eq]
      exact le_trans hab hbc
    · have h3 : ¬ a.2 = c.2 := fun e => h2 (h1.symm.trans e)
      rw [if_neg h2, decide_eq_true_eq] at hbc
      rw [if_neg h3, decide_eq_true_eq, h1]
      exact hbc
  · by_cases h2 : b.2 = c.2
    · have h3 : ¬ a.2 = c.2 := fun e => h1 (e.trans h2.symm)
      rw [if_neg h1, decide_eq_true_eq] at hab
      rw [if_neg h3, decide_eq_true_eq, ← h2]
      exact hab
    · rw [if_neg h1, decide_eq_true_eq] at hab
      rw [if_neg h2, decide_eq_true_eq] at hbc
      have h4 : c.2 < a.2 := lt_trans hbc hab
      have h3 : ¬ a.2 = c.2 := by
        intro e
        rw [e] at h4
        exact lt_irrefl _ h4
      rw [if_neg h3, decide_eq_true_eq]
      exact h4

theorem itemTotals_fst (rs : List Record) :
    (itemTotals rs).map Prod.fst = (rs.map Record.item).dedup := by
  rw [itemTotals, List.map_map]
  show List.map (fun x => x) _ = _
  simp

theorem topItems_pairwise (rs : List Record) (n : Nat) :
    (topItems rs n).Pairwise (fun a b => topLe a b = true) :=
  ((List.sorted_mergeSort topLe_trans topLe_total (itemTotals rs)).sublist
    (List.take_sublist n _))

theorem topItems_fst_nodup (rs : List Record) (n : Nat) :
    ((topItems rs n).map Prod.fst).Nodup := by
  have h1 : ((itemTotals rs).map Prod.fst).Nodup := by
    rw [itemTotals_fst]
    exact List.nodup_dedup _
  have hperm := (List.mergeSort_perm (itemTotals rs) topLe).map Prod.fst
  have h2 : (((itemTotals rs).mergeSort topLe).map Prod.fst).Nodup :=
    hperm.nodup_iff.mpr h1
  exact h2.sublist ((List.take_sublist n _).map Prod.fst)

/-- C8: topItems groups by item name, sums cost, and orders deterministically
descending by total with ties broken by item name ascending: every entry's
total is the sum of the costs of that item's transactions, consecutive
entries are ordered by (total descending, name ascending strictly), and for
any two positions holding equal totals the earlier one carries the
lexicographically smaller name. -/
theorem C8_topItems_deterministic :
    (∀ (rs : List Record) (n : Nat) (nm : String) (t : ℚ),
      (nm, t) ∈ topItems rs n →
        t = ((rs.filter (fun r => r.item = nm)).map Record.cost).sum) ∧
    (∀ (rs : List Record) (n : Nat),
      (topItems rs n).Pairwise
        (fun a b => b.2 < a.2 ∨ (a.2 = b.2 ∧ a.1 < b.1))) ∧
    (∀ (rs : List Record) (n i j : Nat), i < j → j < (topItems rs n).length →
      ((topItems rs n).getD i ("", 0)).2 = ((topItems rs n).getD j ("", 0)).2 →
      ((topItems rs n).getD i ("", 0)).1 < ((topItems rs n).getD j ("", 0)).1) := by
  have hpair : ∀ (rs : List Record) (n : Nat),
      (topItems rs n).Pairwise
        (fun a b => b.2 < a.2 ∨ (a.2 = b.2 ∧ a.1 < b.1)) := by
    intro rs n
    have hp := topItems_pairwise rs n
    have hn : (topItems rs n).Pairwise (fun a b => a.1 ≠ b.1) :=
      (List.pairwise_map).mp (topItems_fst_nodup rs n)
    refine (hp.and hn).imp ?_
    rintro a b ⟨hle, hne⟩
    simp only [topLe] at hle
    by_cases h : a.2 = b.2
    · rw [if_pos h, decide_eq_true_eq] at hle
      exact Or.inr ⟨h, lt_of_le_of_ne hle hne⟩
    · rw [if_neg h, decide_eq_true_eq] at hle
      exact Or.inl hle
  refine ⟨?_, hpair, ?_⟩
  · intro rs n nm t hmem
    have h1 : (nm, t) ∈ (itemTotals rs).mergeSort topLe :=
      (List.take_sublist n _).mem hmem
    have h2 : (nm, t) ∈ itemTotals rs :=
      (List.mergeSort_perm (itemTotals rs) topLe).mem_iff.mp h1
    rw [itemTotals, List.mem_map] at h2
    obtain ⟨name, hname, heq⟩ := h2
    have hfst : name = nm := congrArg Prod.fst heq
    subst hfst
    have hsnd := congrArg Prod.snd heq
    simpa using hsnd.symm
  · intro rs n i j hij hj heq
    have hp := hpair rs n
    have hi : i < (topItems rs n).length := lt_trans hij hj
    rw [List.getD_eq_getElem _ _ hi, List.getD_eq_getElem _ _ hj] at heq ⊢
    have hrel := (List.pairwise_iff_get.mp hp) ⟨i, hi⟩ ⟨j, hj⟩ hij
    rcases hrel with h | ⟨-, h⟩
    · exfalso
      rw [List.get_eq_getElem, List.get_eq_getElem] at h
      rw [heq] at h
      exact lt_irrefl _ h
    · rwa [List.get_eq_getElem, List.get_eq_getElem] at h

theorem tieSet_topItems : topItems tieSet 10 = [("alpha", 5), ("beta", 5)] := by
  have hd : ((tieSet.map Record.item).dedup) = ["beta", "alpha"] := by decide
  have ht : itemTotals tieSet = [("beta", 5), ("alpha", 5)] := by
    rw [itemTotals, hd]
    norm_num +decide [tieSet]
  rw [topItems, ht]
  norm_num +decide [List.mergeSort, topLe, List.merge]

/-- Witness for C8: on a record set with two items of equal total cost the
lexicographically smaller name comes first. -/
theorem C8_topItems_deterministic_witness :
    ((topItems tieSet 10).getD 0 ("", 0)).1 < ((topItems tieSet 10).getD 1 ("", 0)).1 :=
  C8_topItems_deterministic.2.2 tieSet 10 0 1 (by norm_num)
    (by rw [tieSet_topItems]; norm_num)
    (by rw [tieSet_topItems]; norm_num [List.getD])

theorem lookup_mem_values {α β : Type} [BEq α] :
    ∀ (l : List (α × β)) (k : α) (v : β), l.lookup k = some v → v ∈ l.map Prod.snd
  | [], k, v, h => by simp [List.lookup] at h
  | (a, b) :: t, k, v, h => by
    rw [List.lookup] at h
    cases hk : k == a with
    | true =>
      rw [hk] at h
      simp only [Option.some.injEq] at h
      simp [h.symm]
    | false =>
      rw [hk] at h
      exact List.mem_cons_of_mem _ (lookup_mem_values t k v h)

/-- C10: get_category_color is total: for every input, None included, it
returns a hex color string, and for unknown or missing categories it falls
back to the Miscellaneous color #D9D9D9. -/
theorem C10_get_category_color_total :
    (∀ c : Option String, isHexColor (get_category_color c) = true) ∧
    get_category_color none = "#D9D9D9" ∧
    (∀ s : String, category_colors.lookup s = none →
      get_category_color (some s) = "#D9D9D9") := by
  have hvals : ∀ v ∈ category_colors.map Prod.snd, isHexColor v = true := by decide
  refine ⟨?_, ?_, ?_⟩
  · intro c
    rw [get_category_color]
    cases hl : category_colors.lookup (c.getD "Miscellaneous") with
    | some v => exact hvals v (lookup_mem_values _ _ _ hl)
    | none => decide
  · decide
  · intro s hnone
    rw [get_category_color]
    have : (some s).getD "Miscellaneous" = s := rfl
    rw [this, hnone]
    decide

/-- Witness for C10: a name outside the palette falls back to the
Miscellaneous color. -/
theorem C10_get_category_color_total_witness :
    get_category_color (some "Time Travel") = "#D9D9D9" :=
  C10_get_category_color_total.2.2 "Time Travel" (by decide)

theorem load_df_drops_only_bad_dates (rows : List RawRow) :
    load_df rows = load_df (rows.filter (fun r => (parse_date_cell r.dateCell).isSome)) ∧
    (load_df rows).length
      = (rows.filter (fun r => (parse_date_cell r.dateCell).isSome)).length := by
  induction rows with
  | nil => exact ⟨rfl, rfl⟩
  | cons x t ih =>
    obtain ⟨ih1, ih2⟩ := ih
    cases hp : parse_date_cell x.dateCell with
    | none =>
      have hl : loadRow x = none := by simp [loadRow, hp]
      constructor
      · simpa [load_df, List.filterMap_cons, List.filter_cons, hl, hp] using ih1
      · simpa [load_df, List.filterMap_cons, List.filter_cons, hl, hp] using ih2
    | some d =>
      have hl : loadRow x
          = some ⟨x.item, x.category, parse_cost_cell x.costCell, d, x.notes⟩ := by
        simp [loadRow, hp]
      constructor
      · simpa [load_df, List.filterMap_cons, List.filter_cons, hl, hp] using ih1
      · simpa [load_df, List.filterMap_cons, List.filter_cons, hl, hp] using ih2

/-- C7: load_df absorbs per-row parse anomalies without raising: rows whose
date cannot be parsed are exactly the ones dropped, rows whose cost cannot
be parsed are kept with cost 0, and a row whose Cost is the text $1,250.50
is retained with cost 1250.50. -/
theorem C7_load_absorbs_row_anomalies :
    (∀ rows : List RawRow,
      load_df rows
        = load_df (rows.filter (fun r => (parse_date_cell r.dateCell).isSome)) ∧
      (load_df rows).length
        = (rows.filter (fun r => (parse_date_cell r.dateCell).isSome)).length) ∧
    (∀ (r : RawRow) (d : Date), parse_date_cell r.dateCell = some d →
      loadRow r = some ⟨r.item, r.category, parse_cost_cell r.costCell, d, r.notes⟩) ∧
    (∀ (r : RawRow) (s : String) (d : Date), parse_date_cell r.dateCell = some d →
      parseMoney s = none →
      loadRow { r with costCell := .text s } = some ⟨r.item, r.category, 0, d, r.notes⟩) ∧
    parseMoney "$1,250.50" = some (2501 / 2) ∧
    (∀ (it cat nt : String) (d : Date),
      load_df [⟨it, cat, .text "$1,250.50", .date d, nt⟩] = [⟨it, cat, 2501 / 2, d, nt⟩]) := by
  have hmoney : parseMoney "$1,250.50" = some (2501 / 2) := by
    have hp : parseMoneyParts "$1,250.50" = some (1250, 50, 2) := by decide
    rw [parseMoney, hp]
    simp only [Option.map]
    norm_num
  refine ⟨load_df_drops_only_bad_dates, ?_, ?_, hmoney, ?_⟩
  · intro r d hp
    simp [loadRow, hp]
  · intro r s d hp hm
    simp [loadRow, hp, parse_cost_cell, hm]
  · intro it cat nt d
    simp [load_df, loadRow, parse_date_cell, parse_cost_cell, hmoney]

/-- Witness for C7: a parseable date with an unparseable cost is kept with
cost 0. -/
theorem C7_load_absorbs_row_anomalies_witness :
    loadRow ⟨"pen", "Miscellaneous", CellVal.text "n/a", CellVal.date ⟨2024, 5, 1⟩, ""⟩
      = some ⟨"pen", "Miscellaneous", 0, ⟨2024, 5, 1⟩, ""⟩ :=
  C7_load_absorbs_row_anomalies.2.2.1
    ⟨"pen", "Miscellaneous", CellVal.empty, CellVal.date ⟨2024, 5, 1⟩, ""⟩
    "n/a" ⟨2024, 5, 1⟩ rfl (by decide)

theorem dateRowLe_total (a b : Date × Row) : dateRowLe a b || dateRowLe b a :=
  Date.leb_total a.1 b.1

theorem dateRowLe_trans (a b c : Date × Row) :
    dateRowLe a b = true → dateRowLe b c = true → dateRowLe a c = true :=
  Date.leb_trans a.1 b.1 c.1

theorem sortable_append_nonsortable (rows : List Row) :
    ((sortableList rows).map Prod.snd ++ nonsortableList rows).Perm
      (rows.map rewriteRow) := by
  induction rows with
  | nil => exact List.Perm.refl _
  | cons r t ih =>
    cases hp : _parse_date r.date with
    | some d =>
      have hrw : rewriteRow r = { r with date := .date d } := by simp [rewriteRow, hp]
      simp only [sortableList, nonsortableList, List.filterMap_cons, List.filter_cons,
        hp, Option.map_some', Option.isNone_some, List.map_cons, List.cons_append,
        cond_false, Bool.false_eq_true, if_false]
      rw [hrw]
      exact (ih).cons _
    | none =>
      have hrw : rewriteRow r = r := by simp [rewriteRow, hp]
      simp only [sortableList, nonsortableList, List.filterMap_cons, List.filter_cons,
        hp, Option.map_none', Option.isNone_none, List.map_cons, if_true]
      rw [hrw]
      exact (List.perm_middle).trans (ih.cons r)

theorem sortableList_date_cell (rows : List Row) :
    ∀ p ∈ sortableList rows, p.2.date = CellVal.date p.1 := by
  intro p hp
  rw [sortableList, List.mem_filterMap] at hp
  obtain ⟨r, -, hr⟩ := hp
  cases hd : _parse_date r.date with
  | none => rw [hd] at hr; simp at hr
  | some d =>
    rw [hd] at hr
    simp only [Option.map_some', Option.some.injEq] at hr
    rw [← hr]

/-- C2: the sort phase of rewrite sorts all parseable data rows ascending by
their parsed date with a stable sort, rewrites each date cell as a genuine
date value, and moves every row with an unparseable date to the end in
original relative order, dropping nothing: the output is a permutation of
the rewritten input rows, it consists of the sorted parseable block followed
by exactly the unparseable rows in input order, the sorted block is pairwise
nondecreasing in the parsed date with every date cell holding a genuine
date value, and any two rows sharing a parsed date keep their original
relative order. -/
theorem C2_sort_phase :
    (∀ rows : List Row, (sortRows rows).Perm (rows.map rewriteRow)) ∧
    (∀ rows : List Row,
      sortRows rows = ((sortableList rows).mergeSort dateRowLe).map Prod.snd
        ++ rows.filter (fun r => (_parse_date r.date).isNone)) ∧
    (∀ rows : List Row,
      ((sortableList rows).mergeSort dateRowLe).Pairwise
        (fun a b => a.1.leb b.1 = true)) ∧
    (∀ rows : List Row, ∀ p ∈ (sortableList rows).mergeSort dateRowLe,
      p.2.date = CellVal.date p.1) ∧
    (∀ (rows : List Row) (d : Date) (r1 r2 : Row),
      [(d, r1), (d, r2)].Sublist (sortableList rows) →
      [r1, r2].Sublist (sortRows rows)) := by
  refine ⟨?_, ?_, ?_, ?_, ?_⟩
  · intro rows
    exact (((List.mergeSort_perm (sortableList rows) dateRowLe).map Prod.snd).append_right
      (nonsortableList rows)).trans (sortable_append_nonsortable rows)
  · intro rows
    rfl
  · intro rows
    exact List.sorted_mergeSort dateRowLe_trans dateRowLe_total (sortableList rows)
  · intro rows p hp
    exact sortableList_date_cell rows p
      ((List.mergeSort_perm (sortableList rows) dateRowLe).mem_iff.mp hp)
  · intro rows d r1 r2 hsub
    have hle : dateRowLe (d, r1) (d, r2) = true := Date.leb_refl d
    have h1 : [(d, r1), (d, r2)].Sublist ((sortableList rows).mergeSort dateRowLe) :=
      List.pair_sublist_mergeSort dateRowLe_trans dateRowLe_total hle hsub
    have h2 : [r1, r2].Sublist (((sortableList rows).mergeSort dateRowLe).map Prod.snd) :=
      h1.map Prod.snd
    exact h2.trans (List.sublist_append_left _ _)

/-- Witness for C2: two rows sharing the date 2024-01-05 keep their original
relative order through the sort phase. -/
theorem C2_sort_phase_witness :
    [(⟨.text "a", .empty, .num 3, .date ⟨2024, 1, 5⟩, .empty, .empty, .empty, .empty⟩ : Row),
     (⟨.text "b", .empty, .num 4, .date ⟨2024, 1, 5⟩, .empty, .empty, .empty, .empty⟩ : Row)]
      |>.Sublist (sortRows
        [⟨.text "a", .empty, .num 3, .date ⟨2024, 1, 5⟩, .empty, .empty, .empty, .empty⟩,
         ⟨.text "b", .empty, .num 4, .date ⟨2024, 1, 5⟩, .empty, .empty, .empty, .empty⟩]) :=
  C2_sort_phase.2.2.2.2
    [⟨.text "a", .empty, .num 3, .date ⟨2024, 1, 5⟩, .empty, .empty, .empty, .empty⟩,
     ⟨.text "b", .empty, .num 4, .date ⟨2024, 1, 5⟩, .empty, .empty, .empty, .empty⟩]
    ⟨2024, 1, 5⟩ _ _ (by decide)

/-- C1: the rewrite copies the original byte-for-byte to
stem_backup_timestamp.xlsx before any mutation: when the backup copy fails
the whole rewrite aborts with a backup error, no phase after phase 1 runs,
and the directory (hence the original file) is left untouched; when it
succeeds, the backup file holds exactly the original workbook content. -/
theorem C1_backup_before_mutation :
    (∀ (fs : FS) (path stem ts : String) (sheet : Sheet),
      fs.read path = some sheet →
      (remake_xlsx_file fs path stem ts false).err = some .backupFailed ∧
      (remake_xlsx_file fs path stem ts false).fs = fs ∧
      (remake_xlsx_file fs path stem ts false).phasesRun = [1]) ∧
    (∀ (fs : FS) (path stem ts : String) (sheet : Sheet),
      fs.read path = some sheet → backupName stem ts ≠ path →
      (remake_xlsx_file fs path stem ts true).fs.read (backupName stem ts) = some sheet ∧
      (remake_xlsx_file fs path stem ts true).err = none ∧
      (remake_xlsx_file fs path stem ts true).phasesRun = [1, 2, 3, 4, 5]) := by
  constructor
  · intro fs path stem ts sheet hread
    rw [remake_xlsx_file, hread]
    exact ⟨rfl, rfl, rfl⟩
  · intro fs path stem ts sheet hread hne
    rw [remake_xlsx_file, hread]
    refine ⟨?_, rfl, rfl⟩
    show (((fs.write (backupName stem ts) sheet).write path _).read (backupName stem ts))
      = some sheet
    rw [FS.write, FS.write, FS.read]
    have h1 : (backupName stem ts == path) = false := by
      simpa using hne
    have h2 : (backupName stem ts == backupName stem ts) = true := by simp
    simp [List.lookup, h1, h2]

/-- Witness for C1: both failure and success conjuncts on a concrete
one-file directory. -/
theorem C1_backup_before_mutation_witness :
    (remake_xlsx_file ⟨[("purchases.xlsx", ⟨[], [], false, false⟩)]⟩
        "purchases.xlsx" "purchases" "2025-01-01_00-00-00" false).fs
      = ⟨[("purchases.xlsx", ⟨[], [], false, false⟩)]⟩ ∧
    (remake_xlsx_file ⟨[("purchases.xlsx", ⟨[], [], false, false⟩)]⟩
        "purchases.xlsx" "purchases" "2025-01-01_00-00-00" true).fs.read
        (backupName "purchases" "2025-01-01_00-00-00")
      = some ⟨[], [], false, false⟩ :=
  ⟨(C1_backup_before_mutation.1 _ "purchases.xlsx" "purchases" "2025-01-01_00-00-00"
      ⟨[], [], false, false⟩ (by decide)).2.1,
   (C1_backup_before_mutation.2 _ "purchases.xlsx" "purchases" "2025-01-01_00-00-00"
      ⟨[], [], false, false⟩ (by decide) (by decide)).1⟩

end Budget
